import Mathlib

/-!
# Shallow embedding of the multithreaded memory allocator (src/allocator.c)

The source file modelled here is the block-list allocator implementation
(`allocator.c`): a doubly linked list of `memory_block_t` headers threaded
through mmap-obtained memory, with first-fit search, splitting, coalescing,
and page-granular heap extension.

Modelling decisions, each justified against the source:

* Machine integers.  All `size_t` arithmetic is modelled on `Nat` with an
  explicit `% 2^64` where the C expression can wrap (the multiplication in
  `allocator_calloc`, the `+` and mask in `align_size` and in the page
  rounding of `extend_heap`).  `SIZE_MOD = 2^64` models an LP64 platform.

* Layout constants.  `BLOCK_SIZE` is `sizeof(memory_block_t)` = 8 (size_t)
  + 4 (int) + 4 (padding) + 8 + 8 (pointers) = 32 bytes on LP64.
  `ALIGNMENT = 16` as in the source.  `PAGE_SIZE` models
  `sysconf(_SC_PAGESIZE)` as the common value 4096.

* The block list.  The source keeps a doubly linked list starting at the
  global `free_list`.  Every link update in the source (`extend_heap`,
  `split_block`, `merge_blocks`) keeps each on-list block's `prev` pointer
  equal to its predecessor on the `next`-chain, so the state is modelled as
  the Lean list of blocks on the `next`-chain from `free_list`, in chain
  order; `prev` is the list predecessor and needs no separate field.
  A block records its header address, its `size` field and its `free` flag.
  Note that `allocator_malloc` extends the heap with
  `extend_heap(free_list, size)` — the *head* of the list — so when the
  list has more than one element the blocks after the head are dropped
  from the chain (they are leaked, still mapped but unreachable).  The
  model reproduces this exactly.  Pointers handed to `allocator_free` /
  `allocator_realloc` are resolved against the current chain (the block
  whose payload address equals the pointer); a pointer into a region that
  is not the payload of any on-chain block is rejected by the
  `valid_block` check (in C, reading the `free` field of a non-header is
  where behaviour would leave the model).

* Memory contents.  Payload bytes matter to several claims, so the state
  carries `mem : Nat → Option Nat`, byte values by address.  `some v` is a
  byte written as data (or zero-filled by the anonymous mapping);  `none`
  marks bytes occupied by a block header written by `extend_heap` or
  `split_block` (their concrete values are the header's machine encoding,
  never equal to a caller's data byte in the scenarios below).  `memset`
  and `memcpy` are range writes evaluated pointwise.

* mmap.  Each public operation performs at most one `mmap`, whose outcome
  is an oracle parameter `Option Nat`: `none` models `MAP_FAILED`, `some a`
  models success at address `a` (the OS chooses the address; nothing
  relates it to existing regions).  An anonymous private mapping reads as
  zero, so the fresh region's bytes are set to `some 0` before the header
  is written.

* The mutex serialises the public operations; each operation is modelled
  as one atomic state transformer, which is exactly the serialisation the
  lock provides.
-/

namespace Allocator

/-- Width of `size_t` on the modelled LP64 platform: values wrap mod `2^64`. -/
def SIZE_MOD : Nat := 2 ^ 64

/-- `#define ALIGNMENT 16`. -/
def ALIGNMENT : Nat := 16

/-- `#define BLOCK_SIZE sizeof(memory_block_t)` = 32 on LP64. -/
def BLOCK_SIZE : Nat := 32

/-- `#define PAGE_SIZE sysconf(_SC_PAGESIZE)`, modelled as 4096. -/
def PAGE_SIZE : Nat := 4096

/-- `align_size(size)`: `(size + (ALIGNMENT - 1)) & ~(ALIGNMENT - 1)` in
`size_t` arithmetic (the `+` wraps; the mask keeps the low 64 bits). -/
def align_size (size : Nat) : Nat :=
  Nat.land ((size + (ALIGNMENT - 1)) % SIZE_MOD) (SIZE_MOD - ALIGNMENT)

/-- Page rounding in `extend_heap`:
`(total_size + PAGE_SIZE - 1) & ~(PAGE_SIZE - 1)` in `size_t` arithmetic. -/
def page_align (total : Nat) : Nat :=
  Nat.land ((total + (PAGE_SIZE - 1)) % SIZE_MOD) (SIZE_MOD - PAGE_SIZE)

/-- One `memory_block_t` header on the `free_list` chain: its address, its
`size` field and its `free` flag (`free = true` ↔ the C field is 1). -/
structure Block where
  addr : Nat
  size : Nat
  free : Bool
  deriving DecidableEq, Repr

/-- Byte contents of the managed address space.  `some v` = data byte `v`;
`none` = a byte inside a freshly written block header (its value is the
header's machine encoding, not caller data). -/
def Mem : Type := Nat → Option Nat

/-- Write the constant byte value `v` over `[start, start+len)`
(models `memset` and, with `v = none`, a header store). -/
def writeRange (m : Mem) (start len : Nat) (v : Option Nat) : Mem :=
  fun a => if start ≤ a ∧ a < start + len then v else m a

/-- `memcpy(dst, src, len)`: bytes of `[dst, dst+len)` read from the
corresponding source offsets. -/
def copyRange (m : Mem) (dst src len : Nat) : Mem :=
  fun a => if dst ≤ a ∧ a < dst + len then m (src + (a - dst)) else m a

/-- Allocator state: the `free_list` chain in chain order, plus memory. -/
structure AllocState where
  blocks : List Block
  mem : Mem

/-- The state before any allocation: `free_list == NULL`, nothing mapped. -/
def initialState : AllocState := ⟨[], fun _ => none⟩

/-- `get_block(ptr)` then a chain lookup: the first chain block whose
payload address (`header address + BLOCK_SIZE`) is `p`.  In C this is pure
pointer arithmetic (`(memory_block_t*)ptr - 1`); resolving it against the
chain identifies the same header for every pointer that is the payload of
an on-chain block. -/
def get_block : List Block → Nat → Option Block
  | [], _ => none
  | b :: rest, p => if b.addr + BLOCK_SIZE = p then some b else get_block rest p

/-- `valid_block(block)`: non-null and `block->free == 0`. -/
def valid_block : Option Block → Bool
  | some b => !b.free
  | none => false

/-- `find_block` + the hit path of `allocator_malloc`, fused along the
first-fit scan: find the first block with `current->free && current->size
>= size`; mark it used (`block->free = 0`); if `block->size > size +
BLOCK_SIZE + ALIGNMENT`, `split_block(block, size)` carves the remainder
into a new free block spliced in directly after it.  Returns the updated
chain, the payload pointer, and the address of the header `split_block`
wrote into memory (if it split). -/
def malloc_go (sz : Nat) : List Block → Option (List Block × Nat × Option Nat)
  | [] => none
  | b :: rest =>
    if b.free = true ∧ sz ≤ b.size then
      if b.size > sz + BLOCK_SIZE + ALIGNMENT then
        -- split_block: new header at block + BLOCK_SIZE + size,
        -- new size = block->size - size - BLOCK_SIZE, new free = 1,
        -- spliced after block; block->size = size.
        let nb : Block := ⟨b.addr + BLOCK_SIZE + sz, b.size - sz - BLOCK_SIZE, true⟩
        some (⟨b.addr, sz, false⟩ :: nb :: rest, b.addr + BLOCK_SIZE, some nb.addr)
      else
        some (⟨b.addr, b.size, false⟩ :: rest, b.addr + BLOCK_SIZE, none)
    else
      match malloc_go sz rest with
      | some (l, a, h) => some (b :: l, a, h)
      | none => none

/-- `extend_heap(last, size)`.  `last?` is the argument `last` as a chain
index (`none` = `NULL`).  On oracle success at address `a`: the new header
is written at `a` with `size = total_size - BLOCK_SIZE`, `free = 0`,
`next = NULL`, `prev = last`; `last->next = block` (which drops whatever
followed `last` from the chain) or, for `last == NULL`, `free_list =
block`.  The fresh anonymous mapping reads as zero before the header
store.  Returns the new block's address and the new state. -/
def extend_heap (st : AllocState) (last? : Option Nat) (size : Nat)
    (mmapRes : Option Nat) : Option (Nat × AllocState) :=
  let total := page_align ((size + BLOCK_SIZE) % SIZE_MOD)
  match mmapRes with
  | none => none
  | some a =>
    let nb : Block := ⟨a, total - BLOCK_SIZE, false⟩
    let blocks' := match last? with
      | none => [nb]
      | some j => st.blocks.take (j + 1) ++ [nb]
    let mem' := writeRange (writeRange st.mem a total (some 0)) a BLOCK_SIZE none
    some (a, ⟨blocks', mem'⟩)

/-- `allocator_malloc(size)`: 0 → NULL; align; first-fit (with split) or
`extend_heap(free_list, size)` — note the argument is the list *head*. -/
def allocator_malloc (st : AllocState) (size : Nat) (mmapRes : Option Nat) :
    Option Nat × AllocState :=
  if size = 0 then (none, st)
  else
    let sz := align_size size
    match malloc_go sz st.blocks with
    | some (bs, p, hdr?) =>
      let mem' := match hdr? with
        | some ha => writeRange st.mem ha BLOCK_SIZE none
        | none => st.mem
      (some p, ⟨bs, mem'⟩)
    | none =>
      match extend_heap st (if st.blocks.isEmpty then none else some 0) sz mmapRes with
      | none => (none, st)
      | some (a, st') => (some (a + BLOCK_SIZE), st')

/-- First half of `merge_blocks`: absorb the chain successor if free
(`block->size += BLOCK_SIZE + next->size; unlink next`). -/
def merge_next (b : Block) : List Block → List Block
  | n :: rest =>
    if n.free then ⟨b.addr, b.size + BLOCK_SIZE + n.size, b.free⟩ :: rest
    else b :: n :: rest
  | [] => [b]

/-- `allocator_free` body once `get_block`/`valid_block` identified the
in-use block at the head of `prev :: rest`-shaped suffixes: walk the chain
keeping the predecessor at hand; at the match, set `free = 1`, merge with
the successor if free, then merge into the predecessor if free
(`prev->size += BLOCK_SIZE + block->size; unlink block`). -/
def free_go (p : Nat) (prev : Block) : List Block → List Block
  | [] => [prev]
  | c :: rest =>
    if c.addr + BLOCK_SIZE = p then
      if c.free then prev :: c :: rest   -- valid_block fails: double free is a no-op
      else
        match merge_next ⟨c.addr, c.size, true⟩ rest with
        | d :: rest' =>
          if prev.free then ⟨prev.addr, prev.size + BLOCK_SIZE + d.size, prev.free⟩ :: rest'
          else prev :: d :: rest'
        | [] => [prev]   -- merge_next never returns []
    else prev :: free_go p c rest

/-- `allocator_free(ptr)`: NULL → no-op; invalid block (not the payload of
an on-chain in-use block) → no-op; else mark free and `merge_blocks`.
The list head has `prev == NULL`, so only a successor merge can apply
there. -/
def allocator_free (st : AllocState) (p : Nat) : AllocState :=
  if p = 0 then st
  else
    match st.blocks with
    | [] => st
    | b :: rest =>
      if b.addr + BLOCK_SIZE = p then
        if b.free then st
        else ⟨merge_next ⟨b.addr, b.size, true⟩ rest, st.mem⟩
      else ⟨free_go p b rest, st.mem⟩

/-- The in-place path of `allocator_realloc` (`block->size >= size`):
split when `block->size > size + BLOCK_SIZE + ALIGNMENT`, exactly as
`split_block` does.  Returns the chain and the split header address. -/
def realloc_split (p sz : Nat) : List Block → List Block × Option Nat
  | [] => ([], none)
  | b :: rest =>
    if b.addr + BLOCK_SIZE = p then
      if b.size > sz + BLOCK_SIZE + ALIGNMENT then
        let nb : Block := ⟨b.addr + BLOCK_SIZE + sz, b.size - sz - BLOCK_SIZE, true⟩
        (⟨b.addr, sz, false⟩ :: nb :: rest, some nb.addr)
      else (b :: rest, none)
    else
      let r := realloc_split p sz rest
      (b :: r.1, r.2)

/-- `allocator_realloc(ptr, size)`: NULL → malloc; 0 → free and NULL;
invalid block → NULL; large enough → in-place (optional split); else
malloc a new block, `memcpy` the old `block->size` bytes, free the old
pointer. -/
def allocator_realloc (st : AllocState) (p : Nat) (size : Nat)
    (mmapRes : Option Nat) : Option Nat × AllocState :=
  if p = 0 then allocator_malloc st size mmapRes
  else if size = 0 then (none, allocator_free st p)
  else
    match get_block st.blocks p with
    | none => (none, st)
    | some b =>
      if b.free then (none, st)
      else
        let sz := align_size size
        if sz ≤ b.size then
          let r := realloc_split p sz st.blocks
          let mem' := match r.2 with
            | some ha => writeRange st.mem ha BLOCK_SIZE none
            | none => st.mem
          (some p, ⟨r.1, mem'⟩)
        else
          match allocator_malloc st sz mmapRes with
          | (none, st₁) => (none, st₁)
          | (some np, st₁) =>
            let st₂ : AllocState := ⟨st₁.blocks, copyRange st₁.mem np p b.size⟩
            (some np, allocator_free st₂ p)

/-- `allocator_calloc(nmemb, size)`: `total_size = nmemb * size` in
`size_t` arithmetic (wraps on overflow, unchecked), delegate to
`allocator_malloc`, and on success `memset(ptr, 0, total_size)`. -/
def allocator_calloc (st : AllocState) (nmemb size : Nat) (mmapRes : Option Nat) :
    Option Nat × AllocState :=
  let total := (nmemb * size) % SIZE_MOD
  match allocator_malloc st total mmapRes with
  | (none, st') => (none, st')
  | (some p, st') => (some p, ⟨st'.blocks, writeRange st'.mem p total (some 0)⟩)

/-- `allocator_init()`: empty body, returns 0. -/
def allocator_init (st : AllocState) : Int × AllocState := (0, st)

/-- `allocator_destroy()`: walk the chain and `munmap(current,
current->size + BLOCK_SIZE)` — but only when `!current->free` — then
`free_list = NULL`.  Returns the list of `(address, length)` regions
actually unmapped together with the reset state. -/
def allocator_destroy (st : AllocState) : List (Nat × Nat) × AllocState :=
  (st.blocks.filterMap
     (fun b => if !b.free then some (b.addr, b.size + BLOCK_SIZE) else none),
   ⟨[], st.mem⟩)

/-- Invariant I3 of the spec, on the chain: no two adjacent blocks are
both marked free. -/
def noAdjacentFree : List Block → Bool
  | b :: c :: rest => (!(b.free && c.free)) && noAdjacentFree (c :: rest)
  | _ => true

/-- Invariant I2 of the spec, on the chain: ascending addresses, and each
block's successor starts at `addr + BLOCK_SIZE + size`. -/
def addressContiguous : List Block → Bool
  | b :: c :: rest =>
    (decide (c.addr = b.addr + BLOCK_SIZE + b.size)) && addressContiguous (c :: rest)
  | _ => true

/-- The ordering half of invariant I2 alone: strictly ascending addresses. -/
def addressOrdered : List Block → Bool
  | b :: c :: rest => (decide (b.addr < c.addr)) && addressOrdered (c :: rest)
  | _ => true

end Allocator

namespace Allocator

/-! ## Helper lemmas -/

/-- The head block's `free` flag (`false` for the empty chain). -/
def headIsFree : List Block → Bool
  | [] => false
  | b :: _ => b.free

theorem noAdj_cons (b : Block) (rest : List Block) :
    noAdjacentFree (b :: rest) = ((!(b.free && headIsFree rest)) && noAdjacentFree rest) := by
  cases rest <;> simp [noAdjacentFree, headIsFree]

/-- A failing `allocator_malloc` (null return) leaves the state untouched:
every mutation in the source happens only on a path that returns non-null. -/
theorem malloc_fail_state (st : AllocState) (s : Nat) (o : Option Nat)
    (h : (allocator_malloc st s o).1 = none) : allocator_malloc st s o = (none, st) := by
  by_cases hs : s = 0
  · simp [allocator_malloc, hs]
  · rcases hgo : malloc_go (align_size s) st.blocks with _ | ⟨l, a, hd⟩
    · rcases o with _ | a
      · simp [allocator_malloc, hs, hgo, extend_heap]
      · simp [allocator_malloc, hs, hgo, extend_heap] at h
    · simp [allocator_malloc, hs, hgo] at h

/-- If `ptr` does not resolve to an in-use chain block, the walk of
`free_go` rebuilds the chain unchanged. -/
theorem free_go_invalid (p : Nat) :
    ∀ (rest : List Block) (prev : Block),
      valid_block (get_block rest p) = false → free_go p prev rest = prev :: rest := by
  intro rest
  induction rest with
  | nil => intro prev _; rfl
  | cons c rest' ih =>
    intro prev h
    unfold get_block at h
    by_cases hc : c.addr + BLOCK_SIZE = p
    · rw [if_pos hc] at h
      simp [valid_block] at h
      simp [free_go, hc, h]
    · rw [if_neg hc] at h
      simp [free_go, hc, ih c h]

end Allocator

namespace Allocator

/-! ## C9 — allocator_init -/

/-- Claim C9: `allocator_init` always returns 0 and leaves the allocator
state unchanged, hence it is idempotent and every other public operation
behaves identically whether or not it was ever called; the block list of
the initial state is empty (growth happens lazily in `allocator_malloc`). -/
theorem init_returns_zero_and_is_identity (st : AllocState) :
    allocator_init st = (0, st) ∧
    allocator_init (allocator_init st).2 = (0, st) ∧
    (∀ size o, allocator_malloc (allocator_init st).2 size o = allocator_malloc st size o) ∧
    (∀ p, allocator_free (allocator_init st).2 p = allocator_free st p) ∧
    (∀ p size o, allocator_realloc (allocator_init st).2 p size o = allocator_realloc st p size o) ∧
    (∀ c s o, allocator_calloc (allocator_init st).2 c s o = allocator_calloc st c s o) ∧
    allocator_destroy (allocator_init st).2 = allocator_destroy st ∧
    initialState.blocks = [] :=
  ⟨rfl, rfl, fun _ _ => rfl, fun _ => rfl, fun _ _ _ => rfl, fun _ _ _ => rfl, rfl, rfl⟩

/-! ## C7 — allocator_destroy -/

/-- A teardown scenario: one free block and one in-use block on the chain. -/
def destroyTestState : AllocState :=
  ⟨[⟨4096, 4064, true⟩, ⟨8192, 4064, false⟩], fun _ => none⟩

/-- Claim C7 (code divergence): `allocator_destroy` resets the list, but it
unmaps only the regions of blocks with `free == 0` (the loop guards the
`munmap` with `!current->free`), so the free block's region at 4096 is
never unmapped, contradicting the claim that every owned region — in use
or free — is released. -/
theorem destroy_skips_free_blocks :
    (allocator_destroy destroyTestState).2.blocks = [] ∧
    (allocator_destroy destroyTestState).1 = [(8192, 4064 + BLOCK_SIZE)] ∧
    ((4096, 4064 + BLOCK_SIZE) ∈ (allocator_destroy destroyTestState).1 → False) := by
  refine ⟨rfl, rfl, ?_⟩
  decide

/-! ## C10 — overflow in allocator_calloc -/

/-- A chain with one dirty free block: its payload still holds the byte
255 everywhere (left over from a previous user). -/
def dirtyState : AllocState :=
  ⟨[⟨4096, 4064, true⟩],
   fun a => if 4096 + BLOCK_SIZE ≤ a ∧ a < 8192 then some 255 else none⟩

/-- Claim C10: `allocator_calloc` multiplies `nmemb * size` in `size_t`
arithmetic with no overflow check.  `2^63 * 2` wraps to 0, so the call
degrades to `allocator_malloc(0)` and returns null with the state intact;
`(2^63 + 1) * 2` wraps to 2, so exactly 2 bytes are allocated (the dirty
free block is reused and split for an aligned size of 16) and exactly 2
bytes are zero-filled — the third payload byte still reads 255.  The
overflow itself is never detected or reported. -/
theorem calloc_overflow_wraps :
    (2 ^ 63) * 2 % SIZE_MOD = 0 ∧
    (∀ st o, allocator_calloc st (2 ^ 63) 2 o = (none, st)) ∧
    (2 ^ 63 + 1) * 2 % SIZE_MOD = 2 ∧
    (allocator_calloc dirtyState (2 ^ 63 + 1) 2 none).1 = some 4128 ∧
    (allocator_calloc dirtyState (2 ^ 63 + 1) 2 none).2.blocks =
      [⟨4096, 16, false⟩, ⟨4144, 4016, true⟩] ∧
    (allocator_calloc dirtyState (2 ^ 63 + 1) 2 none).2.mem 4128 = some 0 ∧
    (allocator_calloc dirtyState (2 ^ 63 + 1) 2 none).2.mem 4129 = some 0 ∧
    (allocator_calloc dirtyState (2 ^ 63 + 1) 2 none).2.mem 4130 = some 255 :=
  ⟨rfl, fun _ _ => rfl, rfl, rfl, rfl, rfl, rfl, rfl⟩

/-! ## C8 — allocator_calloc delegates and zero-fills -/

/-- Claim C8: `allocator_calloc(count, size)` computes `count * size` (in
`size_t` arithmetic), delegates the allocation to `allocator_malloc`, and
on success zero-fills the region; concretely for `c = 10, s = 4` from the
empty allocator every one of the 40 payload bytes reads zero. -/
theorem calloc_delegates_and_zero_fills :
    (∀ st c s o,
      (allocator_calloc st c s o).1 = (allocator_malloc st (c * s % SIZE_MOD) o).1 ∧
      (allocator_calloc st c s o).2.blocks = (allocator_malloc st (c * s % SIZE_MOD) o).2.blocks) ∧
    (allocator_calloc initialState 10 4 (some 4096)).1 = some 4128 ∧
    ((List.range 40).all fun i =>
      (allocator_calloc initialState 10 4 (some 4096)).2.mem (4128 + i) == some 0) = true := by
  refine ⟨fun st c s o => ?_, rfl, by decide⟩
  rcases hm : allocator_malloc st (c * s % SIZE_MOD) o with ⟨p?, st'⟩
  rcases p? with _ | p <;> simp [allocator_calloc, hm]

end Allocator

namespace Allocator

/-! ## C6 — invalid inputs are refused without touching the state -/

/-- Claim C6: `allocator_malloc(0)` returns null, `allocator_free(NULL)` is
a no-op, and `allocator_free` / `allocator_realloc` on a (non-null)
pointer that is not the payload of a currently in-use block are a no-op /
return null — in every case the whole state (all blocks and all memory
bytes) is left unchanged.  (A null pointer handed to resize is the
separate documented case that degrades to allocate.) -/
theorem invalid_inputs_leave_state_unchanged (st : AllocState) (p size : Nat)
    (o : Option Nat) :
    (allocator_malloc st 0 o = (none, st)) ∧
    (allocator_free st 0 = st) ∧
    (p ≠ 0 → valid_block (get_block st.blocks p) = false →
      allocator_free st p = st ∧
      (size ≠ 0 → allocator_realloc st p size o = (none, st))) := by
  refine ⟨rfl, rfl, fun hp hv => ⟨?_, fun hsz => ?_⟩⟩
  · obtain ⟨bs, mem⟩ := st
    rcases bs with _ | ⟨b, rest⟩
    · simp [allocator_free, hp]
    · simp only [get_block] at hv
      by_cases hb : b.addr + BLOCK_SIZE = p
      · rw [if_pos hb] at hv
        simp only [valid_block, Bool.not_eq_false'] at hv
        simp [allocator_free, hp, hb, hv]
      · rw [if_neg hb] at hv
        simp [allocator_free, hp, hb, free_go_invalid p rest b hv]
  · rcases hg : get_block st.blocks p with _ | b
    · simp [allocator_realloc, hp, hsz, hg]
    · rw [hg] at hv
      simp only [valid_block, Bool.not_eq_false'] at hv
      simp [allocator_realloc, hp, hsz, hg, hv]

/-- A state whose only block is free: its payload pointer 4128 is then an
invalid handle (double release), and 5000 resolves to no block at all. -/
def invalidHandleState : AllocState := ⟨[⟨4096, 4064, true⟩], fun _ => some 7⟩

/-- Witness for C6 at concrete inputs: releasing the payload of an
already-free block is a no-op and resizing it returns null. -/
theorem invalid_inputs_witness :
    allocator_free invalidHandleState 4128 = invalidHandleState ∧
    allocator_realloc invalidHandleState 4128 64 (some 8192) = (none, invalidHandleState) := by
  have h := (invalid_inputs_leave_state_unchanged invalidHandleState 4128 64
      (some 8192)).2.2 (by decide) (by decide)
  exact ⟨h.1, h.2 (by decide)⟩

/-! ## C5 — resize growth failure leaves the original intact -/

/-- Claim C5: when `allocator_realloc` must grow (the aligned request
exceeds the block's size) and the internal `allocator_malloc` fails, the
operation returns null and the entire state — the original block's size,
free flag, position, and every memory byte — is exactly as before. -/
theorem realloc_growth_failure_leaves_state (st : AllocState) (b : Block)
    (p m : Nat) (o : Option Nat)
    (hp : p ≠ 0) (hm : m ≠ 0)
    (hg : get_block st.blocks p = some b) (hb : b.free = false)
    (hgrow : b.size < align_size m)
    (hfail : (allocator_malloc st (align_size m) o).1 = none) :
    allocator_realloc st p m o = (none, st) := by
  have hle : ¬ (align_size m ≤ b.size) := by omega
  have hmal := malloc_fail_state st (align_size m) o hfail
  simp [allocator_realloc, hp, hm, hg, hb, hle, hmal]

/-- A state with a single in-use block of 4064 bytes. -/
def singleUsedState : AllocState := ⟨[⟨4096, 4064, false⟩], fun _ => some 7⟩

/-- Witness for C5: growing the single in-use block to 8000 bytes while
mmap fails returns null and leaves the state untouched. -/
theorem realloc_growth_failure_witness :
    allocator_realloc singleUsedState 4128 8000 none = (none, singleUsedState) :=
  realloc_growth_failure_leaves_state singleUsedState ⟨4096, 4064, false⟩ 4128 8000 none
    (by decide) (by decide) (by decide) (by decide) (by decide) (by decide)

end Allocator

namespace Allocator

/-! ## C1 — extend_heap and the append-on-miss behaviour -/

/-- First allocation from the empty allocator (fresh region at 4096). -/
def threeAllocsA := allocator_malloc initialState 32 (some 4096)

/-- Second allocation: search miss, fresh region at 8192. -/
def threeAllocsB := allocator_malloc threeAllocsA.2 32 (some 8192)

/-- Third allocation: search miss, fresh region at 12288. -/
def threeAllocsC := allocator_malloc threeAllocsB.2 32 (some 12288)

/-- Claim C1 fails on the code in two ways, both visible on three
consecutive 32-byte allocations: (1) the first block's header size field
is 4064 (page-rounded region minus header), not the requested 32; (2) the
third allocation passes `free_list` — the list *head* — to `extend_heap`
as `last`, so the new block is linked after the head and the second block
(8192) is dropped from the list instead of the new block being appended
after the current last block. -/
theorem extend_heap_claim_counterexample :
    (threeAllocsA.2.blocks = [⟨4096, 4064, false⟩] ∧ ((4064 : Nat) = 32 → False)) ∧
    threeAllocsB.2.blocks = [⟨4096, 4064, false⟩, ⟨8192, 4064, false⟩] ∧
    threeAllocsC.2.blocks = [⟨4096, 4064, false⟩, ⟨12288, 4064, false⟩] ∧
    (threeAllocsC.2.blocks.map Block.addr = [4096, 8192, 12288] → False) :=
  ⟨⟨rfl, by decide⟩, rfl, rfl, by decide⟩

/-- Claim C1 as amended: on success `extend_heap(last, size)` creates an
in-use block whose size field is the page-rounded total minus the header
size (not the requested size), returns it, and links it directly after
`last` — dropping from the list any blocks that followed `last`; when
`last` is the genuine last block this appends to the end, and when the
list was empty the new block becomes the head.  On mapping failure it
returns null.  `allocator_malloc` on a search miss calls it with
`free_list` (the head), so the new block is linked after the *head*, which
is the last block only while the list has at most one element. -/
theorem extend_heap_links_after_given_block (st : AllocState) (j size a : Nat) :
    (∀ last?, extend_heap st last? size none = none) ∧
    ((extend_heap st (some j) size (some a)).map (fun r => r.1) = some a) ∧
    ((extend_heap st (some j) size (some a)).map (fun r => r.2.blocks) =
      some (st.blocks.take (j + 1) ++
        [⟨a, page_align ((size + BLOCK_SIZE) % SIZE_MOD) - BLOCK_SIZE, false⟩])) ∧
    ((extend_heap st none size (some a)).map (fun r => r.2.blocks) =
      some [⟨a, page_align ((size + BLOCK_SIZE) % SIZE_MOD) - BLOCK_SIZE, false⟩]) ∧
    (st.blocks ≠ [] →
      (extend_heap st (some (st.blocks.length - 1)) size (some a)).map (fun r => r.2.blocks) =
        some (st.blocks ++
          [⟨a, page_align ((size + BLOCK_SIZE) % SIZE_MOD) - BLOCK_SIZE, false⟩])) ∧
    (∀ h t, size ≠ 0 → malloc_go (align_size size) st.blocks = none →
      st.blocks = h :: t →
      (allocator_malloc st size (some a)).1 = some (a + BLOCK_SIZE) ∧
      (allocator_malloc st size (some a)).2.blocks =
        [h, ⟨a, page_align ((align_size size + BLOCK_SIZE) % SIZE_MOD) - BLOCK_SIZE, false⟩]) := by
  refine ⟨fun last? => rfl, rfl, rfl, rfl, fun hne => ?_, fun h t hsz hgo hbs => ?_⟩
  · have hpos : 0 < st.blocks.length := List.length_pos.mpr hne
    have hlen : st.blocks.length - 1 + 1 = st.blocks.length := by omega
    simp [extend_heap, hlen, List.take_length]
  · obtain ⟨bs, mem⟩ := st
    simp only at hbs hgo
    subst hbs
    constructor <;> simp [allocator_malloc, hsz, hgo, extend_heap, List.isEmpty]

/-- Two in-use blocks: first-fit always misses here. -/
def twoUsedState : AllocState :=
  ⟨[⟨4096, 4064, false⟩, ⟨8192, 4064, false⟩], fun _ => none⟩

/-- Witness for the amended C1: a search miss on a two-block list links
the fresh region at 12288 after the head, dropping the block at 8192. -/
theorem extend_heap_links_witness :
    (allocator_malloc twoUsedState 32 (some 12288)).1 = some 12320 ∧
    (allocator_malloc twoUsedState 32 (some 12288)).2.blocks =
      [⟨4096, 4064, false⟩, ⟨12288, 4064, false⟩] := by
  have h := (extend_heap_links_after_given_block twoUsedState 0 32 12288).2.2.2.2.2
    ⟨4096, 4064, false⟩ [⟨8192, 4064, false⟩] (by decide) (by decide) rfl
  exact ⟨h.1, h.2⟩

/-! ## C2 — the address-order / contiguity invariant I2 -/

/-- Two allocations whose fresh regions the OS places at descending,
non-adjacent addresses (8192 then 4096). -/
def descAllocA := allocator_malloc initialState 32 (some 8192)

/-- Second allocation of the descending-address scenario. -/
def descAllocB := allocator_malloc descAllocA.2 32 (some 4096)

/-- Claim C2 fails on the code: after the second `allocator_malloc`
returns, the list holds two separately mapped regions; nothing relates the
two mmap addresses, so neither the ascending-address ordering nor the
`next.addr = addr + BLOCK_SIZE + size` contiguity equation holds. -/
theorem address_invariant_counterexample :
    descAllocB.2.blocks = [⟨8192, 4064, false⟩, ⟨4096, 4064, false⟩] ∧
    addressOrdered descAllocB.2.blocks = false ∧
    addressContiguous descAllocB.2.blocks = false :=
  ⟨rfl, by decide, by decide⟩

/-- Claim C2 as amended: the contiguity equation `next.addr = addr +
BLOCK_SIZE + size` (and with it the address order) holds between the two
blocks produced by a split — in the split path of `allocator_malloc` and
in the in-place split path of `allocator_realloc` the free remainder
starts exactly `BLOCK_SIZE + size` past the shrunk block — but across
separately mapped regions neither ordering nor contiguity is guaranteed. -/
theorem split_preserves_adjacency :
    (∀ sz bs bs' pay ha, malloc_go sz bs = some (bs', pay, some ha) →
      ∃ xs b nb ys, bs' = xs ++ b :: nb :: ys ∧
        nb.addr = b.addr + BLOCK_SIZE + b.size ∧ b.addr < nb.addr ∧
        b.free = false ∧ nb.free = true ∧ nb.addr = ha ∧ pay = b.addr + BLOCK_SIZE) ∧
    (∀ p sz bs ha, (realloc_split p sz bs).2 = some ha →
      ∃ xs b nb ys, (realloc_split p sz bs).1 = xs ++ b :: nb :: ys ∧
        nb.addr = b.addr + BLOCK_SIZE + b.size ∧ b.addr < nb.addr ∧
        b.free = false ∧ nb.free = true ∧ nb.addr = ha) := by
  constructor
  · intro sz bs
    induction bs with
    | nil => intro bs' pay ha h; exact absurd h (by simp [malloc_go])
    | cons b rest ih =>
      intro bs' pay ha h
      by_cases hc : b.free = true ∧ sz ≤ b.size
      · by_cases hsplit : b.size > sz + BLOCK_SIZE + ALIGNMENT
        · rw [malloc_go, if_pos hc, if_pos hsplit] at h
          simp only [Option.some.injEq, Prod.mk.injEq] at h
          obtain ⟨h1, h2, h3⟩ := h
          subst h1; subst h2; subst h3
          exact ⟨[], ⟨b.addr, sz, false⟩,
            ⟨b.addr + BLOCK_SIZE + sz, b.size - sz - BLOCK_SIZE, true⟩, rest,
            rfl, rfl, by simp only [BLOCK_SIZE]; omega, rfl, rfl, rfl, rfl⟩
        · rw [malloc_go, if_pos hc, if_neg hsplit] at h
          simp at h
      · rw [malloc_go, if_neg hc] at h
        rcases hrec : malloc_go sz rest with _ | ⟨l, a', h'⟩
        · rw [hrec] at h; exact absurd h (by simp)
        · rw [hrec] at h
          simp only [Option.some.injEq, Prod.mk.injEq] at h
          obtain ⟨h1, h2, h3⟩ := h
          obtain ⟨xs, bb, nb, ys, hdec, e1, e2, e3, e4, e5, e6⟩ :=
            ih l a' ha (by rw [hrec, h3])
          exact ⟨b :: xs, bb, nb, ys, by rw [← h1, hdec]; rfl,
            e1, e2, e3, e4, e5, by rw [← h2]; exact e6⟩
  · intro p sz bs
    induction bs with
    | nil => intro ha h; exact absurd h (by simp [realloc_split])
    | cons b rest ih =>
      intro ha h
      by_cases hb : b.addr + BLOCK_SIZE = p
      · by_cases hsplit : b.size > sz + BLOCK_SIZE + ALIGNMENT
        · rw [realloc_split, if_pos hb, if_pos hsplit] at h ⊢
          simp only [Option.some.injEq] at h
          exact ⟨[], ⟨b.addr, sz, false⟩,
            ⟨b.addr + BLOCK_SIZE + sz, b.size - sz - BLOCK_SIZE, true⟩, rest,
            rfl, rfl, by simp only [BLOCK_SIZE]; omega, rfl, rfl, h⟩
        · rw [realloc_split, if_pos hb, if_neg hsplit] at h
          simp at h
      · rw [realloc_split, if_neg hb] at h ⊢
        replace h : (realloc_split p sz rest).2 = some ha := h
        obtain ⟨xs, bb, nb, ys, hdec, hrest⟩ := ih ha h
        refine ⟨b :: xs, bb, nb, ys, ?_, hrest⟩
        show b :: (realloc_split p sz rest).1 = (b :: xs) ++ bb :: nb :: ys
        rw [hdec]; rfl

/-- Witness for the amended C2: splitting the free 4064-byte block for a
32-byte request puts the free remainder exactly at 4096 + 32 + 32. -/
theorem split_adjacency_witness :
    ∃ xs b nb ys,
      ([⟨4096, 32, false⟩, ⟨4160, 4000, true⟩] : List Block) = xs ++ b :: nb :: ys ∧
      nb.addr = b.addr + BLOCK_SIZE + b.size ∧ b.addr < nb.addr ∧
      b.free = false ∧ nb.free = true ∧ nb.addr = 4160 ∧ 4128 = b.addr + BLOCK_SIZE :=
  split_preserves_adjacency.1 32 [⟨4096, 4064, true⟩]
    [⟨4096, 32, false⟩, ⟨4160, 4000, true⟩] 4128 4160 (by decide)

end Allocator

namespace Allocator

/-! ## C4 — resize round-trip and the byte pattern -/

/-- Allocate 128 bytes from the empty allocator (region at 4096). -/
def shrinkAlloc := allocator_malloc initialState 128 (some 4096)

/-- Fill the 128 payload bytes at 4128 with the pattern byte 170. -/
def shrinkFilled : AllocState :=
  ⟨shrinkAlloc.2.blocks, writeRange shrinkAlloc.2.mem 4128 128 (some 170)⟩

/-- Shrink the filled block in place to 32 bytes. -/
def shrinkResized := allocator_realloc shrinkFilled 4128 32 none

/-- Allocate 32 bytes from the empty allocator (region at 4096). -/
def growAlloc := allocator_malloc initialState 32 (some 4096)

/-- Fill the 32 payload bytes at 4128 with the pattern byte 170. -/
def growFilled : AllocState :=
  ⟨growAlloc.2.blocks, writeRange growAlloc.2.mem 4128 32 (some 170)⟩

/-- Grow the filled block to 128 bytes (satisfied in place: the fresh
region's block already spans 4064 bytes). -/
def growResized := allocator_realloc growFilled 4128 128 none

/-- Claim C4 fails on the code for the shrink pair `n = 128, m = 32`:
the in-place shrink calls `split_block`, which writes the free remainder's
header at payload offset 32, overwriting bytes `[32, 64)` of the old
payload — so byte 32 of the returned region no longer reads the fill
pattern 170, refuting "bytes `[0, n)` of `q` equal `B`". -/
theorem resize_roundtrip_counterexample :
    shrinkResized.1 = some 4128 ∧
    (shrinkResized.2.mem (4128 + 32) = some 170 → False) :=
  ⟨rfl, by decide⟩

/-- Claim C4 as amended: after `p = allocate(n)`, filling `p`'s payload
with pattern byte `B`, `q = resize(p, m)` returns a non-null `q` whose
bytes `[0, min(n, m))` all equal `B`, for the pairs `n = 32, m = 128`
(growth — here all of `[0, n)` survives) and `n = 128, m = 32` (shrink —
bytes past `m` may be overwritten by the split block's header). -/
theorem resize_roundtrip_preserves_min_prefix :
    growResized.1 = some 4128 ∧
    ((List.range 32).all fun i => growResized.2.mem (4128 + i) == some 170) = true ∧
    shrinkResized.1 = some 4128 ∧
    ((List.range 32).all fun i => shrinkResized.2.mem (4128 + i) == some 170) = true :=
  ⟨rfl, by decide, rfl, by decide⟩

end Allocator

namespace Allocator

/-! ## C3 — the no-two-adjacent-free-blocks invariant I3 -/

theorem merge_next_ne_nil (b : Block) (ys : List Block) : merge_next b ys ≠ [] := by
  cases ys with
  | nil => simp [merge_next]
  | cons n r =>
    by_cases hn : n.free <;> simp [merge_next, hn]

/-- A successor that is not free is left alone by the merge. -/
theorem merge_next_not_free (b : Block) (ys : List Block) (h : headIsFree ys = false) :
    merge_next b ys = b :: ys := by
  cases ys with
  | nil => rfl
  | cons n r => simp only [headIsFree] at h; simp [merge_next, h]

/-- Merging a freed block with a non-adjacent-free successor list yields a
list that starts with a free block and still has no adjacent free pair. -/
theorem merge_next_free_noAdj (a s : Nat) (rest : List Block)
    (h : noAdjacentFree rest = true) :
    noAdjacentFree (merge_next ⟨a, s, true⟩ rest) = true ∧
    headIsFree (merge_next ⟨a, s, true⟩ rest) = true := by
  cases rest with
  | nil => exact ⟨rfl, rfl⟩
  | cons n r =>
    rw [noAdj_cons, Bool.and_eq_true] at h
    obtain ⟨h1, h2⟩ := h
    by_cases hn : n.free
    · have hr : headIsFree r = false := by
        rcases hh : headIsFree r
        · rfl
        · rw [hn, hh] at h1; simp at h1
      rw [merge_next, if_pos hn]
      refine ⟨?_, rfl⟩
      rw [noAdj_cons, Bool.and_eq_true]
      exact ⟨by simp [hr], h2⟩
    · have hn' : n.free = false := by revert hn; cases n.free <;> simp
      rw [merge_next, if_neg hn]
      refine ⟨?_, rfl⟩
      rw [noAdj_cons, Bool.and_eq_true]
      refine ⟨by simp [headIsFree, hn'], ?_⟩
      rw [noAdj_cons, Bool.and_eq_true]
      exact ⟨h1, h2⟩

/-- The chain produced by `free_go` is never empty and starts with the
predecessor block it was given (whose `free` flag it preserves). -/
theorem free_go_head (p : Nat) (rest : List Block) (prev : Block) :
    headIsFree (free_go p prev rest) = prev.free ∧ free_go p prev rest ≠ [] := by
  cases rest with
  | nil => exact ⟨rfl, by simp [free_go]⟩
  | cons c r =>
    by_cases hc : c.addr + BLOCK_SIZE = p
    · by_cases hcf : c.free
      · simp [free_go, hc, hcf, headIsFree]
      · rcases hm : merge_next ⟨c.addr, c.size, true⟩ r with _ | ⟨d, rest'⟩
        · exact absurd hm (merge_next_ne_nil _ _)
        · by_cases hp : prev.free <;>
            simp [free_go, hc, hcf, hm, hp, headIsFree]
    · simp [free_go, hc, headIsFree]

/-- `free_go` preserves the no-adjacent-free-pair invariant. -/
theorem free_go_noAdj (p : Nat) :
    ∀ (rest : List Block) (prev : Block),
      noAdjacentFree (prev :: rest) = true →
      noAdjacentFree (free_go p prev rest) = true := by
  intro rest
  induction rest with
  | nil => intro prev _; rfl
  | cons c r ih =>
    intro prev h
    have h' := h
    rw [noAdj_cons, Bool.and_eq_true] at h'
    obtain ⟨hpc, hcr⟩ := h'
    simp only [headIsFree] at hpc
    by_cases hc : c.addr + BLOCK_SIZE = p
    · by_cases hcf : c.free
      · simpa [free_go, hc, hcf] using h
      · have hrr : noAdjacentFree r = true := by
          have := hcr
          rw [noAdj_cons, Bool.and_eq_true] at this
          exact this.2
        obtain ⟨hmadj, hmhead⟩ := merge_next_free_noAdj c.addr c.size r hrr
        rcases hm : merge_next ⟨c.addr, c.size, true⟩ r with _ | ⟨d, rest'⟩
        · exact absurd hm (merge_next_ne_nil _ _)
        · rw [hm] at hmadj hmhead
          simp only [headIsFree] at hmhead
          have hdrest : noAdjacentFree rest' = true := by
            rw [noAdj_cons, Bool.and_eq_true] at hmadj
            exact hmadj.2
          have hrest'head : headIsFree rest' = false := by
            rw [noAdj_cons, Bool.and_eq_true] at hmadj
            have := hmadj.1
            rw [hmhead] at this
            simpa using this
          rw [free_go, if_pos hc, if_neg hcf]
          simp only [hm]
          by_cases hp : prev.free
          · rw [if_pos hp, noAdj_cons, Bool.and_eq_true]
            exact ⟨by simp [hrest'head], hdrest⟩
          · have hp' : prev.free = false := by revert hp; cases prev.free <;> simp
            rw [if_neg hp, noAdj_cons, Bool.and_eq_true]
            refine ⟨by simp [headIsFree, hp'], ?_⟩
            rw [noAdj_cons, Bool.and_eq_true]
            exact ⟨by simp [hmhead, hrest'head], hdrest⟩
    · rw [free_go, if_neg hc, noAdj_cons, Bool.and_eq_true]
      refine ⟨?_, ih c hcr⟩
      rw [(free_go_head p r c).1]
      exact hpc

/-- The first-fit/split path of `allocator_malloc` preserves the invariant
and never turns an in-use head into a free one. -/
theorem malloc_go_noAdj (sz : Nat) :
    ∀ (bs bs' : List Block) (pay : Nat) (h? : Option Nat),
      malloc_go sz bs = some (bs', pay, h?) → noAdjacentFree bs = true →
      noAdjacentFree bs' = true ∧ (headIsFree bs' = true → headIsFree bs = true) := by
  intro bs
  induction bs with
  | nil => intro bs' pay h? h _; exact absurd h (by simp [malloc_go])
  | cons b rest ih =>
    intro bs' pay h? h hadj
    have hadj' := hadj
    rw [noAdj_cons, Bool.and_eq_true] at hadj'
    obtain ⟨hbh, hrest⟩ := hadj'
    by_cases hc : b.free = true ∧ sz ≤ b.size
    · have hresthead : headIsFree rest = false := by
        rcases hh : headIsFree rest
        · rfl
        · rw [hc.1, hh] at hbh; simp at hbh
      by_cases hsplit : b.size > sz + BLOCK_SIZE + ALIGNMENT
      · rw [malloc_go, if_pos hc, if_pos hsplit] at h
        simp only [Option.some.injEq, Prod.mk.injEq] at h
        obtain ⟨h1, _, _⟩ := h
        subst h1
        constructor
        · rw [noAdj_cons, Bool.and_eq_true]
          refine ⟨by simp [headIsFree], ?_⟩
          rw [noAdj_cons, Bool.and_eq_true]
          exact ⟨by simp [hresthead], hrest⟩
        · intro hh
          rw [headIsFree] at hh
          simp at hh
      · rw [malloc_go, if_pos hc, if_neg hsplit] at h
        simp only [Option.some.injEq, Prod.mk.injEq] at h
        obtain ⟨h1, _, _⟩ := h
        subst h1
        constructor
        · rw [noAdj_cons, Bool.and_eq_true]
          exact ⟨by simp [headIsFree], hrest⟩
        · intro hh
          rw [headIsFree] at hh
          simp at hh
    · rw [malloc_go, if_neg hc] at h
      rcases hrec : malloc_go sz rest with _ | ⟨l, a', hd'⟩
      · rw [hrec] at h; exact absurd h (by simp)
      · rw [hrec] at h
        simp only [Option.some.injEq, Prod.mk.injEq] at h
        obtain ⟨h1, _, _⟩ := h
        subst h1
        obtain ⟨hl, hlhead⟩ := ih l a' hd' hrec hrest
        constructor
        · rw [noAdj_cons, Bool.and_eq_true]
          refine ⟨?_, hl⟩
          rcases hh : headIsFree l
          · simp
          · rw [hlhead hh] at hbh
            exact hbh
        · intro hh
          rw [headIsFree] at hh ⊢
          exact hh

/-- `allocator_malloc` preserves the no-adjacent-free invariant. -/
theorem malloc_preserves_noAdj (st : AllocState) (size : Nat) (o : Option Nat)
    (h : noAdjacentFree st.blocks = true) :
    noAdjacentFree (allocator_malloc st size o).2.blocks = true := by
  by_cases hs : size = 0
  · simpa [allocator_malloc, hs] using h
  · rcases hgo : malloc_go (align_size size) st.blocks with _ | ⟨l, pay, hd?⟩
    · rcases o with _ | a
      · simpa [allocator_malloc, hs, hgo, extend_heap] using h
      · rcases hbs : st.blocks with _ | ⟨b0, t⟩
        · simp [allocator_malloc, hs, hgo, hbs, extend_heap, noAdjacentFree]
        · have hne : st.blocks.isEmpty = false := by rw [hbs]; rfl
          rw [hbs] at hgo
          simp [allocator_malloc, hs, hgo, extend_heap, hne, hbs, noAdjacentFree,
            noAdj_cons, headIsFree]
    · have := (malloc_go_noAdj (align_size size) st.blocks l pay hd? hgo h).1
      simpa [allocator_malloc, hs, hgo] using this

/-- `allocator_free` preserves the no-adjacent-free invariant. -/
theorem free_preserves_noAdj (st : AllocState) (p : Nat)
    (h : noAdjacentFree st.blocks = true) :
    noAdjacentFree (allocator_free st p).blocks = true := by
  by_cases hp : p = 0
  · simpa [allocator_free, hp] using h
  · rcases hbs : st.blocks with _ | ⟨b, rest⟩
    · simpa [allocator_free, hp, hbs] using h
    · by_cases hb : b.addr + BLOCK_SIZE = p
      · by_cases hbf : b.free
        · simpa [allocator_free, hp, hbs, hb, hbf] using h
        · have hrest : noAdjacentFree rest = true := by
            rw [hbs, noAdj_cons, Bool.and_eq_true] at h
            exact h.2
          have hres := (merge_next_free_noAdj b.addr b.size rest hrest).1
          simpa [allocator_free, hp, hbs, hb, hbf] using hres
      · have hall : noAdjacentFree (b :: rest) = true := by rw [← hbs]; exact h
        have hres := free_go_noAdj p rest b hall
        simpa [allocator_free, hp, hbs, hb] using hres

/-- The block list after `allocator_calloc` is the one `allocator_malloc`
produces for the wrapped product (the zero-fill touches only memory). -/
theorem calloc_blocks_eq (st : AllocState) (c s : Nat) (o : Option Nat) :
    (allocator_calloc st c s o).2.blocks =
      (allocator_malloc st (c * s % SIZE_MOD) o).2.blocks := by
  rcases hm : allocator_malloc st (c * s % SIZE_MOD) o with ⟨p?, st'⟩
  rcases p? with _ | p <;> simp [allocator_calloc, hm]

end Allocator

namespace Allocator

/-- Walking `free_go` past a run of blocks none of which owns the payload
pointer `p` just rebuilds that run, carrying the run's last block as the
new predecessor. -/
theorem free_go_skip (p : Nat) :
    ∀ (xs : List Block) (prev : Block) (rest : List Block),
      (∀ b ∈ xs, b.addr + BLOCK_SIZE ≠ p) →
      free_go p prev (xs ++ rest) =
        (prev :: xs).dropLast ++
          free_go p ((prev :: xs).getLast (List.cons_ne_nil prev xs)) rest := by
  intro xs
  induction xs with
  | nil => intro prev rest _; simp
  | cons x xs' ih =>
    intro prev rest hno
    have hx : x.addr + BLOCK_SIZE ≠ p := hno x (by simp)
    have hno' : ∀ b ∈ xs', b.addr + BLOCK_SIZE ≠ p := fun b hb => hno b (by simp [hb])
    rw [List.cons_append, free_go, if_neg hx, ih x rest hno']
    rw [List.getLast_cons_cons, List.dropLast_cons₂, List.cons_append]

/-- Freeing the payload of an in-use block `c` whose predecessors include
no alias of the pointer and whose immediate predecessor (if any) is
in-use replaces `c` by `merge_next` of its freed header with the
successor list. -/
theorem free_mid (xs : List Block) (c : Block) (ys : List Block) (mem : Mem)
    (hxs : ∀ b ∈ xs, b.addr + BLOCK_SIZE ≠ c.addr + BLOCK_SIZE)
    (hlast : ∀ z, xs.getLast? = some z → z.free = false)
    (hc : c.free = false) :
    allocator_free ⟨xs ++ c :: ys, mem⟩ (c.addr + BLOCK_SIZE) =
      ⟨xs ++ merge_next ⟨c.addr, c.size, true⟩ ys, mem⟩ := by
  have hp0 : c.addr + BLOCK_SIZE ≠ 0 := by simp [BLOCK_SIZE]
  rcases xs with _ | ⟨x, xs'⟩
  · simp only [List.nil_append]
    rw [allocator_free, if_neg hp0]
    simp only [if_pos rfl, hc]
    rfl
  · have hx : x.addr + BLOCK_SIZE ≠ c.addr + BLOCK_SIZE := hxs x (by simp)
    have hno' : ∀ b ∈ xs', b.addr + BLOCK_SIZE ≠ c.addr + BLOCK_SIZE :=
      fun b hb => hxs b (by simp [hb])
    have hL : ((x :: xs').getLast (List.cons_ne_nil x xs')).free = false :=
      hlast _ (List.getLast?_eq_getLast_of_ne_nil (List.cons_ne_nil x xs'))
    rw [List.cons_append, allocator_free, if_neg hp0]
    simp only [if_neg hx]
    rw [free_go_skip _ xs' x (c :: ys) hno']
    rw [free_go, if_pos rfl, if_neg (by simp [hc])]
    rcases hm : merge_next ⟨c.addr, c.size, true⟩ ys with _ | ⟨d, r'⟩
    · exact absurd hm (merge_next_ne_nil _ _)
    · simp only [hm]
      rw [if_neg (by simp [hL])]
      refine congrArg (fun l => (⟨l, mem⟩ : AllocState)) ?_
      calc (x :: xs').dropLast ++
            ((x :: xs').getLast (List.cons_ne_nil x xs')) :: d :: r'
          = ((x :: xs').dropLast ++
              [(x :: xs').getLast (List.cons_ne_nil x xs')]) ++ d :: r' := by simp
        _ = (x :: xs') ++ d :: r' := by
            rw [List.dropLast_append_getLast (List.cons_ne_nil x xs')]

/-- Freeing the payload of an in-use block `c` whose immediate predecessor
is free merges the freed block (after its own successor merge) into that
predecessor. -/
theorem free_prev_free (xs : List Block) (prev c : Block) (ys : List Block)
    (mem : Mem) (d : Block) (r' : List Block)
    (hxs : ∀ b ∈ xs, b.addr + BLOCK_SIZE ≠ c.addr + BLOCK_SIZE)
    (hprevne : prev.addr ≠ c.addr)
    (hpf : prev.free = true) (hc : c.free = false)
    (hm : merge_next ⟨c.addr, c.size, true⟩ ys = d :: r') :
    allocator_free ⟨xs ++ prev :: c :: ys, mem⟩ (c.addr + BLOCK_SIZE) =
      ⟨xs ++ ⟨prev.addr, prev.size + BLOCK_SIZE + d.size, prev.free⟩ :: r', mem⟩ := by
  have hp0 : c.addr + BLOCK_SIZE ≠ 0 := by simp [BLOCK_SIZE]
  have hprev : prev.addr + BLOCK_SIZE ≠ c.addr + BLOCK_SIZE := by
    intro hcontra
    exact hprevne (by omega)
  rcases xs with _ | ⟨x, xs'⟩
  · simp only [List.nil_append]
    rw [allocator_free, if_neg hp0]
    simp only [if_neg hprev]
    rw [free_go, if_pos rfl, if_neg (by simp [hc])]
    simp only [hm, if_pos hpf]
  · have hx : x.addr + BLOCK_SIZE ≠ c.addr + BLOCK_SIZE := hxs x (by simp)
    have hno' : ∀ b ∈ xs' ++ [prev], b.addr + BLOCK_SIZE ≠ c.addr + BLOCK_SIZE := by
      intro b hb
      rcases List.mem_append.mp hb with hb | hb
      · exact hxs b (by simp [hb])
      · rw [List.mem_singleton.mp hb]; exact hprev
    have hgl : (x :: (xs' ++ [prev])).getLast (List.cons_ne_nil x (xs' ++ [prev])) = prev := by
      exact List.getLast_concat (x :: xs')
    have hdl : (x :: (xs' ++ [prev])).dropLast = x :: xs' := by
      show ((x :: xs') ++ [prev]).dropLast = x :: xs'
      exact List.dropLast_concat
    rw [List.cons_append, allocator_free, if_neg hp0]
    simp only [if_neg hx]
    have hre : xs' ++ prev :: c :: ys = (xs' ++ [prev]) ++ c :: ys := by simp
    rw [hre, free_go_skip _ (xs' ++ [prev]) x (c :: ys) hno', hgl, hdl]
    rw [free_go, if_pos rfl, if_neg (by simp [hc])]
    simp only [hm]
    rw [if_pos hpf]

end Allocator

namespace Allocator

/-- Claim C3 as amended: starting from any state with no two adjacent free
blocks, allocate, release, and zeroed-allocate preserve that property
(resize is the exception: its in-place shrink path can split a free
remainder off directly before an already-free block).  Moreover, releasing
two address-adjacent in-use blocks whose outer neighbours are in use, in
either order, leaves exactly one free block spanning both regions. -/
theorem coalescing_invariant (st : AllocState)
    (hst : noAdjacentFree st.blocks = true) :
    (∀ size o, noAdjacentFree (allocator_malloc st size o).2.blocks = true) ∧
    (∀ p, noAdjacentFree (allocator_free st p).blocks = true) ∧
    (∀ c s o, noAdjacentFree (allocator_calloc st c s o).2.blocks = true) ∧
    (∀ xs b1 b2 ys,
      st.blocks = xs ++ b1 :: b2 :: ys →
      b1.free = false → b2.free = false →
      b2.addr = b1.addr + BLOCK_SIZE + b1.size →
      (∀ b ∈ xs, b.addr + BLOCK_SIZE ≠ b1.addr + BLOCK_SIZE ∧
                 b.addr + BLOCK_SIZE ≠ b2.addr + BLOCK_SIZE) →
      (∀ z, xs.getLast? = some z → z.free = false) →
      headIsFree ys = false →
      (allocator_free (allocator_free st (b1.addr + BLOCK_SIZE))
          (b2.addr + BLOCK_SIZE)).blocks
        = xs ++ ⟨b1.addr, b1.size + BLOCK_SIZE + b2.size, true⟩ :: ys ∧
      (allocator_free (allocator_free st (b2.addr + BLOCK_SIZE))
          (b1.addr + BLOCK_SIZE)).blocks
        = xs ++ ⟨b1.addr, b1.size + BLOCK_SIZE + b2.size, true⟩ :: ys) := by
  refine ⟨fun size o => malloc_preserves_noAdj st size o hst,
    fun p => free_preserves_noAdj st p hst,
    fun c s o => ?_,
    fun xs b1 b2 ys hbs h1 h2 hadj hxs hlast hys => ?_⟩
  · rw [calloc_blocks_eq]
    exact malloc_preserves_noAdj st _ o hst
  · obtain ⟨bs, mem⟩ := st
    replace hbs : bs = xs ++ b1 :: b2 :: ys := hbs
    subst hbs
    have h32 : BLOCK_SIZE = 32 := rfl
    have hne : b1.addr ≠ b2.addr := by omega
    have hmn2 : merge_next ⟨b2.addr, b2.size, true⟩ ys =
        ⟨b2.addr, b2.size, true⟩ :: ys := merge_next_not_free _ _ hys
    constructor
    · -- release b1 first, then b2
      have step1 := free_mid xs b1 (b2 :: ys) mem (fun b hb => (hxs b hb).1) hlast h1
      rw [merge_next_not_free _ _ (by simp [headIsFree, h2])] at step1
      have step2 := free_prev_free xs ⟨b1.addr, b1.size, true⟩ b2 ys mem
        ⟨b2.addr, b2.size, true⟩ ys (fun b hb => (hxs b hb).2) hne rfl h2 hmn2
      rw [step1, step2]
    · -- release b2 first, then b1
      have hxs2 : ∀ b ∈ xs ++ [b1], b.addr + BLOCK_SIZE ≠ b2.addr + BLOCK_SIZE := by
        intro b hb
        rcases List.mem_append.mp hb with hb | hb
        · exact (hxs b hb).2
        · rw [List.mem_singleton.mp hb]; omega
      have hlast2 : ∀ z, (xs ++ [b1]).getLast? = some z → z.free = false := by
        intro z hz
        rw [List.getLast?_concat] at hz
        rw [← Option.some.injEq z b1 |>.mp hz.symm] at h1
        exact h1
      have step1 := free_mid (xs ++ [b1]) b2 ys mem hxs2 hlast2 h2
      rw [hmn2] at step1
      have hre1 : (xs ++ [b1]) ++ b2 :: ys = xs ++ b1 :: b2 :: ys := by simp
      have hre2 : (xs ++ [b1]) ++ ⟨b2.addr, b2.size, true⟩ :: ys =
          xs ++ b1 :: ⟨b2.addr, b2.size, true⟩ :: ys := by simp
      rw [hre1, hre2] at step1
      have step2 := free_mid xs b1 (⟨b2.addr, b2.size, true⟩ :: ys) mem
        (fun b hb => (hxs b hb).1) hlast h1
      have hmn1 : merge_next ⟨b1.addr, b1.size, true⟩ (⟨b2.addr, b2.size, true⟩ :: ys) =
          ⟨b1.addr, b1.size + BLOCK_SIZE + b2.size, true⟩ :: ys := by
        simp [merge_next]
      rw [hmn1] at step2
      rw [step1, step2]

/-- A realloc-shrink trace: allocate 200 and 100 bytes (separate regions),
release the second, then shrink the first in place. -/
def shrinkTraceA := allocator_malloc initialState 200 (some 4096)

/-- Second allocation of the shrink trace (region at 8192). -/
def shrinkTraceB := allocator_malloc shrinkTraceA.2 100 (some 8192)

/-- Release of the second block in the shrink trace. -/
def shrinkTraceC := allocator_free shrinkTraceB.2 8224

/-- The in-place shrink of the first block. -/
def shrinkTraceD := allocator_realloc shrinkTraceC 4128 100 none

/-- Claim C3 fails on the code as stated: after the public `resize`
operation returns, the split-off free remainder at 4240 sits directly
before the already-free block at 8192, so two adjacent blocks of the list
are both marked free. -/
theorem adjacent_free_counterexample :
    shrinkTraceD.1 = some 4128 ∧
    shrinkTraceD.2.blocks =
      [⟨4096, 112, false⟩, ⟨4240, 3920, true⟩, ⟨8192, 4064, true⟩] ∧
    noAdjacentFree shrinkTraceD.2.blocks = false :=
  ⟨rfl, rfl, by decide⟩

/-- Two address-adjacent in-use blocks (112 bytes each at 4096 and 4240),
as produced by splitting one region. -/
def adjacentPairState : AllocState :=
  ⟨[⟨4096, 112, false⟩, ⟨4240, 112, false⟩], fun _ => none⟩

/-- Witness for the amended C3 at concrete inputs: allocate preserves the
invariant, and the two releases coalesce to one spanning free block in
either order. -/
theorem coalescing_invariant_witness :
    noAdjacentFree ((allocator_malloc adjacentPairState 48 none).2.blocks) = true ∧
    (allocator_free (allocator_free adjacentPairState 4128) 4272).blocks
      = [⟨4096, 256, true⟩] ∧
    (allocator_free (allocator_free adjacentPairState 4272) 4128).blocks
      = [⟨4096, 256, true⟩] := by
  have h := coalescing_invariant adjacentPairState (by decide)
  have hd := h.2.2.2 [] ⟨4096, 112, false⟩ ⟨4240, 112, false⟩ [] rfl rfl rfl
    (by decide) (by simp) (by simp) rfl
  exact ⟨h.1 48 none, hd.1, hd.2⟩

end Allocator
